import Mathlib

/-!
Verification development for the cherita backend's categorical-binning and
marker-resolution subsystem.  The definitions below are a shallow embedding of
the Python source files:

  - cherita/utils/adata_utils.py  (fillna_as_undefined, get_undefined_category_name,
    type_category, to_categorical, continuous2categorical, discrete2categorical,
    bool2categorical, categorical, get_index_in_array, parse_group / parse_array)
  - cherita/utils/models.py       (Marker.from_index, Marker.from_varset,
    Marker.get_X_at, Marker.X)
  - cherita/plotting/resampling.py (resample)

Numeric values are modelled as rationals, pandas missing values (NaN) as
Option.none, and the remote zarr matrix as a total function together with an
explicit read log where a claim is about store accesses.
-/

/-! ## Rendering of Python values as strings -/

/-- Base-10 digits, little-endian, by structural recursion on a fuel bound
(fuel at least n is always enough since n / 10 decreases). -/
def natDigitsAux : Nat → Nat → List Nat
  | 0, _ => []
  | fuel + 1, n => if n = 0 then [] else (n % 10) :: natDigitsAux fuel (n / 10)

/-- Base-10 digits of n, little-endian. -/
def natDigits (n : Nat) : List Nat := natDigitsAux n n

/-- Decimal rendering of a natural number, mirroring Python str(n). -/
def natStr (n : Nat) : String :=
  if n = 0 then "0" else String.mk (((natDigits n).map Nat.digitChar).reverse)

/-- Decimal rendering of an integer, mirroring Python str(n). -/
def intRepr : Int → String
  | Int.ofNat n => natStr n
  | Int.negSucc n => "-" ++ natStr (n + 1)

/-- Rendering of a rational value.  This stands in for Python str() on floats;
no theorem in this development depends on its exact form. -/
def ratRepr (q : ℚ) : String :=
  intRepr q.num ++ (if q.den = 1 then "" else "/" ++ natStr q.den)

/-- A Python value usable as a pandas category label or data entry:
a string, an integer (bin codes), a float (modelled as a rational) or a bool. -/
inductive Lbl where
  | str (s : String)
  | int (n : Int)
  | rat (q : ℚ)
  | bool (b : Bool)
deriving DecidableEq

/-- Python str() applied to a label value. -/
def pyStr : Lbl → String
  | .str s => s
  | .int n => intRepr n
  | .rat q => ratRepr q
  | .bool b => if b then "True" else "False"

/-! ## Error model

Mirrors cherita/resources/errors.py plus the Python builtin exceptions that
the embedded code paths can raise. -/

inductive Err where
  | invalidKey (msg : String)
  | invalidVar (msg : String)
  | readZarrError (msg : String)
  | valueError (msg : String)
  | typeError (msg : String)
  | attributeError (msg : String)
deriving DecidableEq

deriving instance DecidableEq for Except

/-! ## Dataset handle (zarr group) and feature lookup -/

/-- The slice of an AnnData zarr group that the marker code touches: the main
matrix X (rows = observations, columns = features), the feature axis
(get_group_index of the var group) and the var dataframe columns used for
display names. -/
structure AdataGroup where
  nRows : Nat
  X : Nat → Nat → ℚ
  varIndex : List String
  varCols : String → Nat → String

/-- Embedding of adata_utils.get_index_in_array: position of the first
occurrence of item in the array; raises InvalidKey when absent. -/
def get_index_in_array (arr : List String) (item : String) : Except Err Nat :=
  match arr.findIdx? (fun x => x == item) with
  | some i => Except.ok i
  | none => Except.error (Err.invalidKey ("Invalid key: " ++ item))

/-! ## Marker (cherita/utils/models.py) -/

/-- Embedding of the Marker dataclass.  index / matrix_index are
Union[int|str, list] in the source, modelled as sums; the
source field _aggregation_function is named aggregation_function here. -/
structure Marker where
  index : String ⊕ List String
  name : String
  matrix_index : Nat ⊕ List Nat
  isSet : Bool
  aggregation_function : Option (List (List ℚ) → List ℚ)

/-- Elementwise mean over a list of equal-length vectors: the default
aggregation function np.mean(x, axis=0) of Marker.from_any / from_varset. -/
def meanAxis0 (vs : List (List ℚ)) : List ℚ :=
  match vs with
  | [] => []
  | v :: _ =>
    (List.range v.length).map
      (fun j => ((vs.map (fun w => w.getD j 0)).sum) / (vs.length : ℚ))

/-- Embedding of Marker.from_index.  An integer reference is a direct position
into the feature axis (out of range raises InvalidVar); a string reference is
looked up with get_index_in_array, whose InvalidKey is re-raised as
InvalidVar. -/
def Marker.from_index (g : AdataGroup) (idx : Nat ⊕ String)
    (var_names_col : Option String) : Except Err Marker :=
  match idx with
  | Sum.inl i =>
    if h : i < g.varIndex.length then
      let featureId := g.varIndex.get ⟨i, h⟩
      Except.ok
        { index := Sum.inl featureId
          name := match var_names_col with
            | some c => g.varCols c i
            | none => featureId
          matrix_index := Sum.inl i
          isSet := false
          aggregation_function := none }
    else Except.error (Err.invalidVar ("Invalid feature index " ++ natStr i))
  | Sum.inr s =>
    match get_index_in_array g.varIndex s with
    | Except.ok i =>
      Except.ok
        { index := Sum.inl s
          name := match var_names_col with
            | some c => g.varCols c i
            | none => s
          matrix_index := Sum.inl i
          isSet := false
          aggregation_function := none }
    | Except.error _ =>
      Except.error (Err.invalidVar ("Invalid feature index " ++ s))

/-- Scalar field of a member marker; from_index only ever builds scalar
markers, so the list cases are unreachable when used in from_varset. -/
def scalarIndex (m : Marker) : String :=
  match m.index with
  | Sum.inl s => s
  | Sum.inr _ => ""

/-- Scalar matrix position of a member marker (see scalarIndex). -/
def scalarMatrixIndex (m : Marker) : Nat :=
  match m.matrix_index with
  | Sum.inl i => i
  | Sum.inr _ => 0

/-- Embedding of Marker.from_varset: every member is resolved through
from_index, the fields become lists, isSet is true and the aggregation
function is attached to the produced instance. -/
def Marker.from_varset (g : AdataGroup) (name : String)
    (indices : List (Nat ⊕ String)) (var_names_col : Option String)
    (agg : List (List ℚ) → List ℚ) : Except Err Marker := do
  let ms ← indices.mapM (fun i => Marker.from_index g i var_names_col)
  Except.ok
    { index := Sum.inr (ms.map scalarIndex)
      name := name
      matrix_index := Sum.inr (ms.map scalarMatrixIndex)
      isSet := true
      aggregation_function := some agg }

/-- Embedding of Marker.from_any: dispatch on the runtime type of the
reference (int or str versus dict with name and indices). -/
def Marker.from_any (g : AdataGroup)
    (ref : (Nat ⊕ String) ⊕ (String × List (Nat ⊕ String)))
    (var_names_col : Option String)
    (agg : List (List ℚ) → List ℚ := meanAxis0) : Except Err Marker :=
  match ref with
  | Sum.inl scalar => Marker.from_index g scalar var_names_col
  | Sum.inr p => Marker.from_varset g p.1 p.2 var_names_col agg

/-- Result of a marker data access: a single vector (scalar marker) or a list
of per-sub-feature vectors (set marker). -/
inductive XRes where
  | vec (v : List ℚ)
  | vecs (vs : List (List ℚ))
deriving DecidableEq

/-- Column c of the matrix restricted to the given row positions. -/
def colAt (g : AdataGroup) (rows : List Nat) (c : Nat) : List ℚ :=
  rows.map (fun r => g.X r c)

/-- Embedding of Marker.get_X_at.  The second component is the read log: the
list of (row, column) cells fetched from the remote matrix, so that the
short-circuit on an empty position list is visible as an empty log.
The mismatched isSet / matrix_index combinations are unreachable for markers
built by the class methods. -/
def Marker.get_X_at (m : Marker) (g : AdataGroup) (indices : Option (List Nat)) :
    XRes × List (Nat × Nat) :=
  match indices with
  | some [] => (XRes.vec [], [])
  | _ =>
    let sel := match indices with
      | some l => l
      | none => List.range g.nRows
    if m.isSet then
      let cols := match m.matrix_index with
        | Sum.inr l => l
        | Sum.inl i => [i]
      (XRes.vecs (cols.map (colAt g sel)),
        cols.flatMap (fun c => sel.map (fun r => (r, c))))
    else
      match m.matrix_index with
      | Sum.inl i => (XRes.vec (colAt g sel i), sel.map (fun r => (r, i)))
      | Sum.inr l =>
        (XRes.vecs (sel.map (fun r => l.map (g.X r))),
          l.flatMap (fun c => sel.map (fun r => (r, c))))

/-- Embedding of the Marker.X property: a set marker requires its aggregation
function (ValueError otherwise) and applies it to the full, unfiltered
per-sub-feature columns; a scalar marker returns its full column. -/
def Marker.fullX (m : Marker) (g : AdataGroup) : Except Err XRes :=
  if m.isSet then
    match m.aggregation_function with
    | none =>
      Except.error (Err.valueError "Aggregation function is not set for a set of markers.")
    | some f =>
      let cols := match m.matrix_index with
        | Sum.inr l => l
        | Sum.inl i => [i]
      Except.ok (XRes.vec (f (cols.map (colAt g (List.range g.nRows)))))
  else
    match m.matrix_index with
    | Sum.inl i => Except.ok (XRes.vec (colAt g (List.range g.nRows) i))
    | Sum.inr l =>
      Except.ok (XRes.vecs ((List.range g.nRows).map (fun r => l.map (g.X r))))

/-! ## Resampling (cherita/plotting/resampling.py) -/

/-- Embedding of np.bincount. -/
def bincount (l : List Nat) : List Nat :=
  if l = [] then []
  else (List.range (l.foldr max 0 + 1)).map (fun i => l.count i)

/-- Embedding of resample.  The two np.random.choice calls are modelled as
oracle parameters: drawIds takes the inverse-index vector and the number of
draws; drawVals takes the distinct values, the requested sample size and the
empirical probability vector (numpy guarantees the result has exactly the
requested size, which theorems take as a hypothesis). -/
def resample (data : List ℚ) (nsamples : Nat)
    (drawIds : List Nat → Nat → List Nat)
    (drawVals : List ℚ → Nat → List ℚ → List ℚ) : List ℚ :=
  let NDRAWS := data.length * 100
  let resamples := [(data.min?).getD 0, (data.max?).getD 0]
  let unq := data.dedup.insertionSort (fun a b => a ≤ b)
  let ids := data.map (fun x => unq.findIdx (fun u => u == x))
  let all_ids := drawIds ids NDRAWS
  let ar := (bincount all_ids).map (fun c => (c : ℚ) / (NDRAWS : ℚ))
  resamples ++ drawVals unq nsamples ar

/-! ## Undefined-category name (adata_utils.get_undefined_category_name) -/

/-- Candidate synthetic label with numeric suffix, Python f-string
base_name + underscore + str(i). -/
def undefCand (i : Nat) : String := "undefined_" ++ natStr i

/-- The while loop of get_undefined_category_name: starting at suffix i, the
first candidate not already a category.  The source loop is unbounded; here it
carries fuel, and cats.length + 1 fuel is always enough to reach the same
first fresh candidate (see the freshness lemmas). -/
def findFresh (cats : List String) : Nat → Nat → String
  | i, 0 => undefCand i
  | i, fuel + 1 =>
    if undefCand i ∈ cats then findFresh cats (i + 1) fuel else undefCand i

/-- Embedding of get_undefined_category_name, over the string-valued
categories of the series (Python membership of a str in a mixed category
index can only match the string categories). -/
def get_undefined_category_name (cats : List String) : String :=
  if "undefined" ∈ cats then findFresh cats 1 (cats.length + 1) else "undefined"

/-! ## Categorical columns and fillna (adata_utils.fillna_as_undefined) -/

/-- A pandas categorical: the per-row entries (none is NaN) and the declared
category list. -/
structure CatCol where
  entries : List (Option Lbl)
  categories : List Lbl
deriving DecidableEq

/-- String-valued categories of a mixed category index. -/
def strCategories (cats : List Lbl) : List String :=
  cats.filterMap (fun l => match l with | Lbl.str s => some s | _ => none)

/-- Series.hasnans. -/
def hasnans (c : CatCol) : Bool := c.entries.contains none

/-- Embedding of fillna_as_undefined: when the column has missing values, the
fresh undefined label is appended to the categories (add_categories appends at
the end) and every missing entry is filled with it. -/
def fillna_as_undefined (c : CatCol) : CatCol × Option String :=
  if hasnans c then
    let u := get_undefined_category_name (strCategories c.categories)
    (⟨c.entries.map (fun e => some (e.getD (Lbl.str u))),
      c.categories ++ [Lbl.str u]⟩, some u)
  else (c, none)

/-! ## Python dict built by insertion (for the codes map of type_category) -/

/-- Python dict assignment: replace the value of an existing key in place,
else append the binding. -/
def dictUpdate (d : List (String × Int)) (k : String) (v : Int) :
    List (String × Int) :=
  if d.any (fun p => p.1 == k) then
    d.map (fun p => bif p.1 == k then (k, v) else p)
  else d ++ [(k, v)]

/-- Python dict built from a list of bindings, later bindings overwriting
earlier ones. -/
def pyDict (l : List (String × Int)) : List (String × Int) :=
  l.foldl (fun d p => dictUpdate d p.1 p.2) []

/-- The metadata record produced by type_category. -/
structure CatColInfo where
  type : String
  values : List String
  n_values : Nat
  codes : List (String × Int)
  hasnansFlag : Bool
  value_counts : List (String × Nat)

/-- Embedding of type_category: fill missing values, render the (now
extended) categories as strings, enumerate them into the codes dict, then
overwrite the undefined category's code with -1.  value_counts is keyed by
category (pandas orders it by frequency; dict-lookup semantics are
order-independent). -/
def type_category (c : CatCol) : CatColInfo :=
  let fc := fillna_as_undefined c
  let c2 := fc.1
  let categories := c2.categories.map pyStr
  let codes0 := pyDict (categories.enum.map (fun p => (p.2, (p.1 : Int))))
  let codes := match fc.2 with
    | some u => dictUpdate codes0 u (-1)
    | none => codes0
  { type := "categorical"
    values := categories
    n_values := categories.length
    codes := codes
    hasnansFlag := hasnans c2
    value_counts := c2.categories.map (fun l => (pyStr l, c2.entries.count (some l))) }

/-! ## Categorizer (adata_utils.to_categorical and its branch functions) -/

/-- Raw column data handed to to_categorical: a plain array (possibly with
NaN entries) or an already-encoded categorical. -/
inductive ColData where
  | plain (v : List (Option Lbl))
  | cat (c : CatCol)
deriving DecidableEq

/-- Total order used for pandas category sorting.  Within one value type it is
the value order (what pandas sorts by); across types the constructor rank is a
modelling artifact, never exercised because mixed categories only arise from
fillna_as_undefined, which appends rather than sorts. -/
def lblRank : Lbl → Nat
  | Lbl.bool _ => 0
  | Lbl.int _ => 1
  | Lbl.rat _ => 2
  | Lbl.str _ => 3

/-- Lexicographic comparison of character lists by code point. -/
def charListLeB : List Char → List Char → Bool
  | [], _ => true
  | _ :: _, [] => false
  | c :: cs, d :: ds =>
    if c.val < d.val then true
    else if d.val < c.val then false
    else charListLeB cs ds

/-- Lexicographic string comparison by code point: the order np.sort and
pandas category sorting use on strings. -/
def strLeB (a b : String) : Bool := charListLeB a.data b.data

/-- Boolean comparison for category sorting (see lblRank). -/
def lblLeB : Lbl → Lbl → Bool
  | Lbl.str a, Lbl.str b => strLeB a b
  | Lbl.int a, Lbl.int b => decide (a ≤ b)
  | Lbl.rat a, Lbl.rat b => decide (a ≤ b)
  | Lbl.bool a, Lbl.bool b => !a || b
  | a, b => decide (lblRank a ≤ lblRank b)

/-- Distinct non-missing values in sorted order: the categories produced by
Series.astype of a plain array. -/
def sortedDistinctLbl (v : List (Option Lbl)) : List Lbl :=
  ((v.filterMap id).dedup).insertionSort (fun a b => lblLeB a b = true)

/-- Series(data).astype of a column: a plain array gets its sorted distinct
values as categories; an already-categorical column keeps its categories. -/
def seriesAstypeCategory : ColData → CatCol
  | ColData.plain v => ⟨v, sortedDistinctLbl v⟩
  | ColData.cat c => c

/-- Numeric view of a label, as np.asarray inside pd.cut sees it (bool is
numeric in numpy); none for strings, on which cut raises. -/
def toRatVal : Lbl → Option ℚ
  | Lbl.rat q => some q
  | Lbl.int n => some (n : ℚ)
  | Lbl.bool b => some (if b then 1 else 0)
  | Lbl.str _ => none

/-- Explicit-threshold cut, pd.cut(x, thresholds, include_lowest=True,
labels=False): bin 0 is the closed interval from the first to the second
threshold, bin i thereafter is left-open; values outside every interval are
missing. -/
def cutThresholds (ts : List ℚ) (x : ℚ) : Option Nat :=
  (List.range (ts.length - 1)).find? (fun i =>
    decide (x ≤ ts.getD (i + 1) 0) &&
      (if i = 0 then decide (ts.getD 0 0 ≤ x) else decide (ts.getD i 0 < x)))

/-- Integer-count cut, pd.cut(x, nb): nb equal-width right-closed intervals
between the data minimum and maximum, the leftmost edge lowered by 0.1 percent
of the range so the minimum is included.  The zero-range case is not exercised
by any claim (the callers only cut when at least two distinct values exist). -/
def cutEqualWidth (mn mx : ℚ) (nb : Nat) (x : ℚ) : Option Nat :=
  if mx ≤ mn then some 0
  else if x < mn - (mx - mn) / 1000 ∨ mx < x then none
  else
    some (((List.range nb).find?
      (fun (i : Nat) => decide (x ≤ mn + (mx - mn) * ((i : ℚ) + 1) / (nb : ℚ)))).getD (nb - 1))

/-- The cut of a series of labels by an integer bin count; pd.cut raises
ValueError on a non-positive bin count and on the degenerate all-missing
input (its edges are then not monotone). -/
def cutWithCount (vals : List (Option ℚ)) (nb : Nat) :
    Except Err (List (Option Int)) :=
  if nb = 0 then Except.error (Err.valueError "bins must be a positive integer")
  else
    match (vals.filterMap id).min?, (vals.filterMap id).max? with
    | some mn, some mx =>
      Except.ok (vals.map (fun o => o.bind (fun x => (cutEqualWidth mn mx nb x).map Int.ofNat)))
    | _, _ => Except.error (Err.valueError "bins must increase monotonically")

/-- The pd.cut call of continuous2categorical: data coerced to numeric
(TypeError on strings), then cut by the thresholds when they are a non-empty
list (Python thresholds or nBins is falsy on None and on an empty list), else
by the bin count. -/
def cutSeries (entries : List (Option Lbl)) (thresholds : Option (List ℚ))
    (nb : Nat) : Except Err (List (Option Int)) := do
  let vals ← entries.mapM (fun o => match o with
    | none => Except.ok none
    | some l => match toRatVal l with
      | some q => Except.ok (some q)
      | none => Except.error (Err.typeError "cut on non-numeric data"))
  match thresholds with
  | some ts =>
    if ts.isEmpty then cutWithCount vals nb
    else Except.ok (vals.map (fun o => o.bind (fun x => (cutThresholds ts x).map Int.ofNat)))
  | none => cutWithCount vals nb

/-- The shared tail of both cut branches: bin codes astype Int64 astype
category (sorted distinct codes as categories), optional fillna, and the
number of categories after fillna as the effective bin count. -/
def binnedToCategorical (binned : List (Option Int)) (fillna : Bool) :
    CatCol × Option Nat :=
  let sc : CatCol :=
    ⟨binned.map (Option.map Lbl.int),
      (((binned.filterMap id).dedup).insertionSort (fun a b => a ≤ b)).map Lbl.int⟩
  let sc2 := if fillna then (fillna_as_undefined sc).1 else sc
  (sc2, some sc2.categories.length)

/-- Embedding of continuous2categorical. -/
def continuous2categorical (data : ColData)
    (thresholds : Option (List ℚ) := none) (nBins : Nat := 5)
    (fillna : Bool := true) : Except Err (CatCol × Option Nat) :=
  let s := seriesAstypeCategory data
  if s.categories.length ≤ nBins then
    let s2 := if fillna then (fillna_as_undefined s).1 else s
    Except.ok (s2, none)
  else
    match cutSeries s.entries thresholds nBins with
    | Except.error e => Except.error e
    | Except.ok binned => Except.ok (binnedToCategorical binned fillna)

/-- Embedding of discrete2categorical: the pass-through branch is identical
to the continuous one; the cut branch cuts the row index 0..n-1 (whose
minimum is 0 and maximum n-1) into nBins equal-width groups, ignoring the
values entirely. -/
def discrete2categorical (data : ColData) (nBins : Nat := 5)
    (fillna : Bool := true) : Except Err (CatCol × Option Nat) :=
  let s := seriesAstypeCategory data
  if s.categories.length ≤ nBins then
    let s2 := if fillna then (fillna_as_undefined s).1 else s
    Except.ok (s2, none)
  else
    if nBins = 0 then Except.error (Err.valueError "bins must be a positive integer")
    else
      let n := s.entries.length
      let binned : List (Option Int) :=
        (List.range n).map
          (fun r => (cutEqualWidth 0 ((n : ℚ) - 1) nBins (r : ℚ)).map Int.ofNat)
      Except.ok (binnedToCategorical binned fillna)

/-- Embedding of bool2categorical: cast to category, optional fillna, never
any binning. -/
def bool2categorical (data : ColData) (fillna : Bool := true) :
    Except Err (CatCol × Option Nat) :=
  let s := seriesAstypeCategory data
  let s2 := if fillna then (fillna_as_undefined s).1 else s
  Except.ok (s2, none)

/-- Embedding of the categorical branch function: with fillna, the data goes
through fillna_as_undefined (whose category access raises on a plain column
that has missing values) and back to a Categorical; without fillna the input
is returned untouched. -/
def categoricalFn (data : ColData) (fillna : Bool := true) :
    Except Err (ColData × Option Nat) :=
  if fillna then
    match data with
    | ColData.cat c => Except.ok (ColData.cat (fillna_as_undefined c).1, none)
    | ColData.plain v =>
      if v.contains none then
        Except.error (Err.attributeError "Can only use .cat accessor with categorical values")
      else Except.ok (ColData.cat ⟨v, sortedDistinctLbl v⟩, none)
  else Except.ok (data, none)

/-- Category labels coerced to strings, rename_categories(str). -/
def renameCategoriesStr (c : CatCol) : CatCol :=
  ⟨c.entries.map (Option.map (fun l => Lbl.str (pyStr l))),
    c.categories.map (fun l => Lbl.str (pyStr l))⟩

/-- Binning configuration dict of to_categorical. -/
structure BinsCfg where
  thresholds : Option (List ℚ) := none
  nBins : Nat := 5

/-- Embedding of to_categorical: dispatch on the semantic-type string with a
fallback that returns the data unchanged with no bins; the as_str step calls
rename_categories, which only exists on a categorical (AttributeError on a
plain array). -/
def to_categorical (data : ColData) (type : String) (bins : BinsCfg := {})
    (fillna : Bool := true) (as_str : Bool := true) :
    Except Err (ColData × Option Nat) := do
  let r ←
    if type = "continuous" then
      (continuous2categorical data bins.thresholds bins.nBins fillna).map
        (fun p => (ColData.cat p.1, p.2))
    else if type = "discrete" then
      (discrete2categorical data bins.nBins fillna).map
        (fun p => (ColData.cat p.1, p.2))
    else if type = "boolean" then
      (bool2categorical data fillna).map (fun p => (ColData.cat p.1, p.2))
    else if type = "categorical" then
      categoricalFn data fillna
    else Except.ok (data, none)
  if as_str then
    match r.1 with
    | ColData.cat c => Except.ok (ColData.cat (renameCategoriesStr c), r.2)
    | ColData.plain _ =>
      Except.error (Err.attributeError "object has no attribute rename_categories")
  else Except.ok r

/-! ## Decoding a stored categorical (parse_group, categorical branch) -/

/-- Result of decoding a stored categorical column. -/
inductive ParsedCol where
  | cat (c : CatCol)
  | boolCol (entries : List Bool)
deriving DecidableEq

/-- Embedding of the categorical branch of parse_group (parse_array is the
same logic with the categories array fetched through the attrs pointer):
Categorical.from_codes validates the codes (-1 is NaN), and a column whose
sorted categories are exactly False, True is decoded straight to a boolean
column; map with na_action ignore keeps NaN, which the astype(bool) then
turns into True. -/
def parse_group_categorical (codes : List Int) (categories : List String) :
    Except Err ParsedCol :=
  if codes.all (fun c => decide (-1 ≤ c ∧ c < (categories.length : Int))) then
    let entries : List (Option String) :=
      codes.map (fun c => if c < 0 then none else some (categories.getD c.toNat ""))
    if categories.insertionSort (fun a b => strLeB a b = true) = ["False", "True"] then
      Except.ok (ParsedCol.boolCol
        (entries.map (fun e => match e with
          | some s => s == "True"
          | none => true)))
    else
      Except.ok (ParsedCol.cat
        ⟨entries.map (Option.map Lbl.str), categories.map Lbl.str⟩)
  else Except.error (Err.valueError "codes need to be between -1 and len(categories)-1")

/-- Modelled from the spec: the repository is a read-only API and contains no
encoder back to the stored categorical-with-codes layout, but spec section 8
property 8 requires that re-encoding a decoded boolean column preserve the
original two-category semantics.  This writes the legacy layout: the two
categories True and False with each row's code pointing at its label. -/
def encode_bool_legacy (b : List Bool) : List Int × List String :=
  (b.map (fun x => if x then 0 else 1), ["True", "False"])

/-! # Theorems -/

/-- Claim C7: for every marker (scalar or set), get_X_at with an empty
position list returns an empty sequence with an empty read log (no access to
the backing X array), and the result does not depend on the matrix at all. -/
theorem get_X_at_empty_no_read (m : Marker) (g g2 : AdataGroup) :
    m.get_X_at g (some []) = (XRes.vec [], []) ∧
    m.get_X_at g (some []) = m.get_X_at g2 (some []) :=
  ⟨rfl, rfl⟩

/-- The dataset of claim C2: two rows, column 0 holding the values 1, 3 and
column 1 holding 3, 5. -/
def gC2 : AdataGroup :=
  { nRows := 2
    X := fun r c =>
      if c = 0 then (if r = 0 then 1 else 3)
      else if c = 1 then (if r = 0 then 3 else 5) else 0
    varIndex := ["g0", "g1"]
    varCols := fun _ _ => "" }

/-- Claim C2: the set marker with name S and indices 0, 1 over gC2 has
X equal to the elementwise mean 2, 4; get_X_at at row 0 returns the
per-sub-feature unaggregated vectors, a list with one restricted vector per
member, not the aggregate; and get_X_at never consults the aggregation
function (its result is the same whatever function is attached). -/
theorem marker_set_mean_lazy_aggregation :
    ∃ m : Marker,
      Marker.from_any gC2 (Sum.inr ("S", [Sum.inl 0, Sum.inl 1])) none = Except.ok m ∧
      m.fullX gC2 = Except.ok (XRes.vec [2, 4]) ∧
      (m.get_X_at gC2 (some [0])).1 = XRes.vecs [[1], [3]] ∧
      XRes.vecs [[1], [3]] ≠ XRes.vec [2] ∧
      ∀ (f f2 : List (List ℚ) → List ℚ) (idx : Option (List Nat)),
        Marker.get_X_at { m with aggregation_function := some f } gC2 idx =
        Marker.get_X_at { m with aggregation_function := some f2 } gC2 idx := by
  refine ⟨{ index := Sum.inr ["g0", "g1"], name := "S", matrix_index := Sum.inr [0, 1],
            isSet := true, aggregation_function := some meanAxis0 }, ?_, ?_, ?_, ?_, ?_⟩
  · rfl
  · show Except.ok (XRes.vec (meanAxis0 [[1, 3], [3, 5]])) = _
    have hm : meanAxis0 [[1, 3], [3, 5]] = [2, 4] := by
      unfold meanAxis0
      norm_num [List.range_succ]
    rw [hm]
  · decide
  · decide
  · intro f f2 idx
    match idx with
    | none => rfl
    | some [] => rfl
    | some (a :: t) => rfl

/-- Claim C9: a string marker reference absent from the feature axis makes
from_index fail with the InvalidVar error kind (get_index_in_array's
InvalidKey is caught and re-raised), not a generic exception. -/
theorem from_index_missing_string_invalid_feature (g : AdataGroup) (s : String)
    (h : s ∉ g.varIndex) (c : Option String) :
    Marker.from_index g (Sum.inr s) c =
      Except.error (Err.invalidVar ("Invalid feature index " ++ s)) := by
  have hf : g.varIndex.findIdx? (fun x => x == s) = none := by
    rw [List.findIdx?_eq_none_iff]
    intro x hx
    exact beq_eq_false_iff_ne.mpr (fun he => h (he ▸ hx))
  simp only [Marker.from_index, get_index_in_array, hf]

/-- Witness for C9: the reference nonexistent_gene against a feature axis
that does not contain it. -/
theorem from_index_missing_string_invalid_feature_witness :
    Marker.from_index
        { nRows := 0, X := fun _ _ => 0, varIndex := ["geneA", "geneB"],
          varCols := fun _ _ => "" }
        (Sum.inr "nonexistent_gene") none =
      Except.error (Err.invalidVar ("Invalid feature index " ++ "nonexistent_gene")) :=
  from_index_missing_string_invalid_feature _ "nonexistent_gene" (by decide) none

/-- Claim C6: for any nonempty input vector (in deployment resample is only
invoked above the size threshold) and any target count, the resampled output
starts with the true minimum, then the true maximum, and has total length
nsamples + 2; the draw oracle stands for np.random.choice, which always
returns exactly the requested number of samples. -/
theorem resample_min_max_length (data : List ℚ) (nsamples : Nat)
    (drawIds : List Nat → Nat → List Nat)
    (drawVals : List ℚ → Nat → List ℚ → List ℚ)
    (hne : data ≠ [])
    (hdraw : ∀ a n p, (drawVals a n p).length = n) :
    (resample data nsamples drawIds drawVals).length = nsamples + 2 ∧
    (resample data nsamples drawIds drawVals).get? 0 = data.min? ∧
    (resample data nsamples drawIds drawVals).get? 1 = data.max? := by
  refine ⟨?_, ?_, ?_⟩
  · unfold resample
    simp [List.length_append, hdraw]
  · cases hm : data.min? with
    | none => exact absurd (List.min?_eq_none_iff.mp hm) hne
    | some m =>
      unfold resample
      simp [hm]
  · cases hm : data.max? with
    | none => exact absurd (List.max?_eq_none_iff.mp hm) hne
    | some m =>
      unfold resample
      simp [hm]

/-- Witness for C6 at the vector 3, 1, 2 with two requested samples. -/
theorem resample_min_max_length_witness :
    (resample [3, 1, 2] 2 (fun _ _ => []) (fun _ n _ => List.replicate n 0)).length = 2 + 2 ∧
    (resample [3, 1, 2] 2 (fun _ _ => []) (fun _ n _ => List.replicate n 0)).get? 0 =
      ([3, 1, 2] : List ℚ).min? ∧
    (resample [3, 1, 2] 2 (fun _ _ => []) (fun _ n _ => List.replicate n 0)).get? 1 =
      ([3, 1, 2] : List ℚ).max? :=
  resample_min_max_length [3, 1, 2] 2 _ _ (by decide)
    (fun a n p => List.length_replicate n 0)

/-- Result accessor: the entries of a categorical result of to_categorical. -/
def entriesOfResult : Except Err (ColData × Option Nat) → Option (List (Option Lbl))
  | Except.ok (ColData.cat c, _) => some c.entries
  | _ => none

/-- Result accessor: the categories of a categorical result of
to_categorical. -/
def categoriesOfResult : Except Err (ColData × Option Nat) → Option (List Lbl)
  | Except.ok (ColData.cat c, _) => some c.categories
  | _ => none

/-- Result accessor: the effective-bins component of a to_categorical
result. -/
def binsOfResult : Except Err (ColData × Option Nat) → Option (Option Nat)
  | Except.ok (_, b) => some b
  | _ => none

/-- Counterexample for claim C10: with the default as_str, a plain numeric
column under an unknown semantic type does raise (the fallback hands the data
through unchanged, and the string-coercion step has no rename_categories on a
plain array), so to_categorical is not silent on this path. -/
theorem to_categorical_unknown_type_counterexample :
    to_categorical (ColData.plain [some (Lbl.rat 1)]) "unknowntype" {} true true =
      Except.error (Err.attributeError "object has no attribute rename_categories") := by
  decide

/-- Claim C10 amended: for every semantic-type string outside the four known
ones, to_categorical with as_str disabled does not raise and returns the
input data unchanged together with none as the bins value, via the fallback
dispatch branch; with the default as_str it only stays silent when the input
is already categorical. -/
theorem to_categorical_unknown_type_fallback (data : ColData) (type : String)
    (bins : BinsCfg) (fillna : Bool)
    (h1 : type ≠ "continuous") (h2 : type ≠ "discrete")
    (h3 : type ≠ "boolean") (h4 : type ≠ "categorical") :
    to_categorical data type bins fillna false = Except.ok (data, none) := by
  unfold to_categorical
  simp [h1, h2, h3, h4]
  rfl

/-- Witness for the amended C10 at an unknown type string. -/
theorem to_categorical_unknown_type_fallback_witness :
    to_categorical (ColData.plain [some (Lbl.int 7)]) "unknowntype" {} true false =
      Except.ok (ColData.plain [some (Lbl.int 7)], none) :=
  to_categorical_unknown_type_fallback _ _ _ _ (by decide) (by decide) (by decide)
    (by decide)

/-- One half, built without rational arithmetic. -/
def halfQ : ℚ := ⟨1, 2, by decide, by decide⟩

/-- Three halves. -/
def threeHalvesQ : ℚ := ⟨3, 2, by decide, by decide⟩

/-- Five halves. -/
def fiveHalvesQ : ℚ := ⟨5, 2, by decide, by decide⟩

/-- The continuous column of claim C3: values 0.5, 1.5, 2.5, 10. -/
def c3input : ColData :=
  ColData.plain
    [some (Lbl.rat halfQ), some (Lbl.rat threeHalvesQ),
      some (Lbl.rat fiveHalvesQ), some (Lbl.rat 10)]

/-- The statement of claim C3 as written: categorizing c3input as continuous
with thresholds 0, 1, 2, 3 (and otherwise default arguments, in particular
the default bin count) puts the first three values into bins 0, 1, 2; the
out-of-range 10 becomes the undefined category under fillna and stays
missing without fillna. -/
def c3ClaimProp : Prop :=
  entriesOfResult
      (to_categorical c3input "continuous" { thresholds := some [0, 1, 2, 3] } true true) =
    some [some (Lbl.str "0"), some (Lbl.str "1"), some (Lbl.str "2"),
      some (Lbl.str "undefined")] ∧
  entriesOfResult
      (to_categorical c3input "continuous" { thresholds := some [0, 1, 2, 3] } false true) =
    some [some (Lbl.str "0"), some (Lbl.str "1"), some (Lbl.str "2"), none]

/-- Counterexample for claim C3: with the default bin count of 5 the column's
four distinct values take the pass-through branch of continuous2categorical
(distinct-value count at most nBins), so the explicit thresholds are ignored
and no binning happens at all. -/
theorem c3_thresholds_counterexample : ¬ c3ClaimProp := by
  unfold c3ClaimProp
  decide

/-- Claim C3 amended: the described threshold binning holds once the
requested bin count is below the column's distinct-value count (nBins = 3
here): 0.5, 1.5, 2.5 fall into bins 0, 1, 2 and the out-of-range 10 becomes
the undefined category under fillna, or stays missing without fillna. -/
theorem c3_thresholds_binning :
    entriesOfResult
        (to_categorical c3input "continuous"
          { thresholds := some [0, 1, 2, 3], nBins := 3 } true true) =
      some [some (Lbl.str "0"), some (Lbl.str "1"), some (Lbl.str "2"),
        some (Lbl.str "undefined")] ∧
    entriesOfResult
        (to_categorical c3input "continuous"
          { thresholds := some [0, 1, 2, 3], nBins := 3 } false true) =
      some [some (Lbl.str "0"), some (Lbl.str "1"), some (Lbl.str "2"), none] := by
  decide

/-- Equality of two lists viewed as sets. -/
def listSetEq (l1 l2 : List Lbl) : Prop :=
  (∀ x ∈ l1, x ∈ l2) ∧ (∀ x ∈ l2, x ∈ l1)

/-- Counterexample for claim C5: the discrete column with values a and one
missing entry has one distinct value, below the default bin count, and
to_categorical does return none as the bins value; but with the default
fillna the category set gains the synthetic undefined label, so it does not
equal the column's original set of distinct values. -/
theorem c5_missing_value_counterexample :
    ¬ (binsOfResult
          (to_categorical (ColData.plain [some (Lbl.str "a"), none]) "discrete" {} true true) =
        some none ∧
      listSetEq
        ((categoriesOfResult
          (to_categorical (ColData.plain [some (Lbl.str "a"), none]) "discrete" {} true true)).getD [])
        [Lbl.str "a"]) := by
  unfold listSetEq
  decide

/-- Claim C5 amended: for a discrete column with no missing values whose
distinct-value count is at most nBins, to_categorical returns none as the
bins value and a categorical whose category set equals the column's set of
distinct values (rendered through str when as_str is set). -/
theorem discrete_low_cardinality_passthrough
    (v : List (Option Lbl)) (nb : Nat) (fillna as_str : Bool)
    (hnn : v.contains none = false)
    (hcard : (sortedDistinctLbl v).length ≤ nb) :
    ∃ c : CatCol,
      to_categorical (ColData.plain v) "discrete" { nBins := nb } fillna as_str =
        Except.ok (ColData.cat c, none) ∧
      (as_str = true →
        listSetEq c.categories ((v.filterMap id).map (fun l => Lbl.str (pyStr l)))) ∧
      (as_str = false → listSetEq c.categories (v.filterMap id)) := by
  have hmem : ∀ x : Lbl, x ∈ sortedDistinctLbl v ↔ x ∈ v.filterMap id := by
    intro x
    unfold sortedDistinctLbl
    rw [(List.perm_insertionSort _ _).mem_iff, List.mem_dedup]
  have hfill : fillna_as_undefined ⟨v, sortedDistinctLbl v⟩ =
      (⟨v, sortedDistinctLbl v⟩, none) := by
    unfold fillna_as_undefined hasnans
    simp only [hnn]
    rfl
  have hd : discrete2categorical (ColData.plain v) nb fillna =
      Except.ok (⟨v, sortedDistinctLbl v⟩, none) := by
    unfold discrete2categorical seriesAstypeCategory
    rw [if_pos hcard]
    cases fillna <;> simp [hfill]
  have ht : to_categorical (ColData.plain v) "discrete" { nBins := nb } fillna as_str =
      if as_str then
        Except.ok (ColData.cat (renameCategoriesStr ⟨v, sortedDistinctLbl v⟩), none)
      else Except.ok (ColData.cat ⟨v, sortedDistinctLbl v⟩, none) := by
    unfold to_categorical
    simp [hd]
    cases as_str <;> rfl
  cases as_str
  · refine ⟨⟨v, sortedDistinctLbl v⟩, by simpa using ht, ?_, ?_⟩
    · intro hc
      cases hc
    · intro _
      exact ⟨fun x hx => (hmem x).mp hx, fun x hx => (hmem x).mpr hx⟩
  · refine ⟨renameCategoriesStr ⟨v, sortedDistinctLbl v⟩, by simpa using ht, ?_, ?_⟩
    · intro _
      constructor
      · intro x hx
        simp only [renameCategoriesStr, List.mem_map] at hx
        obtain ⟨a, ha, rfl⟩ := hx
        exact List.mem_map.mpr ⟨a, (hmem a).mp ha, rfl⟩
      · intro x hx
        obtain ⟨a, ha, rfl⟩ := List.mem_map.mp hx
        exact List.mem_map.mpr ⟨a, (hmem a).mpr ha, rfl⟩
    · intro hc
      cases hc

/-- Witness for the amended C5: a single-valued string column, five bins. -/
theorem discrete_low_cardinality_passthrough_witness :
    ∃ c : CatCol,
      to_categorical (ColData.plain [some (Lbl.str "x")]) "discrete" { nBins := 5 } true true =
        Except.ok (ColData.cat c, none) ∧
      (true = true →
        listSetEq c.categories
          ((([some (Lbl.str "x")] : List (Option Lbl)).filterMap id).map
            (fun l => Lbl.str (pyStr l)))) ∧
      (true = false →
        listSetEq c.categories (([some (Lbl.str "x")] : List (Option Lbl)).filterMap id)) :=
  discrete_low_cardinality_passthrough [some (Lbl.str "x")] 5 true true (by decide)
    (by decide)

/-- Claim C4: once a discrete column's distinct-value count exceeds the
requested bin count, discrete2categorical bins by row position only (a cut of
the index 0..n-1 into nBins equal-width ordinal groups): two columns of the
same length produce identical bin assignments (and identical effective bin
counts) no matter what their values are. -/
theorem discrete_rank_position_binning
    (v w : List (Option Lbl)) (nb : Nat) (fillna : Bool)
    (hlen : v.length = w.length)
    (hv : nb < (sortedDistinctLbl v).length)
    (hw : nb < (sortedDistinctLbl w).length)
    (hnb : nb ≠ 0) :
    ∃ rv rw2 : CatCol × Option Nat,
      discrete2categorical (ColData.plain v) nb fillna = Except.ok rv ∧
      discrete2categorical (ColData.plain w) nb fillna = Except.ok rw2 ∧
      rv.1.entries = rw2.1.entries ∧ rv.2 = rw2.2 := by
  unfold discrete2categorical seriesAstypeCategory
  rw [if_neg (Nat.not_le.mpr hv), if_neg hnb, if_neg (Nat.not_le.mpr hw), if_neg hnb]
  refine ⟨_, _, rfl, rfl, ?_, ?_⟩ <;> simp only [hlen]

/-- Witness for C4: two four-row columns with very different values, three
bins each. -/
theorem discrete_rank_position_binning_witness :
    ∃ rv rw2 : CatCol × Option Nat,
      discrete2categorical
          (ColData.plain [some (Lbl.int 10), some (Lbl.int 20), some (Lbl.int 30),
            some (Lbl.int 40)]) 3 true = Except.ok rv ∧
      discrete2categorical
          (ColData.plain [some (Lbl.int 5), some (Lbl.int 1), some (Lbl.int 99),
            some (Lbl.int 7)]) 3 true = Except.ok rw2 ∧
      rv.1.entries = rw2.1.entries ∧ rv.2 = rw2.2 :=
  discrete_rank_position_binning _ _ 3 true (by decide) (by decide) (by decide)
    (by decide)

/-- Claim C8: decoding a stored categorical whose categories are exactly
True, False yields a native boolean column (code c decodes to the truth of
c = 0 under the stored category order True, False), and re-encoding a
decoded boolean column through the legacy layout decodes back to the same
boolean column with exactly two categories. -/
theorem legacy_bool_decode_roundtrip (codes : List Int)
    (h : ∀ c ∈ codes, c = 0 ∨ c = 1) :
    (∃ bs : List Bool,
        parse_group_categorical codes ["True", "False"] =
          Except.ok (ParsedCol.boolCol bs) ∧
        bs = codes.map (fun c => c == 0)) ∧
    (∀ bs : List Bool,
        parse_group_categorical (encode_bool_legacy bs).1 (encode_bool_legacy bs).2 =
          Except.ok (ParsedCol.boolCol bs) ∧
        (encode_bool_legacy bs).2.length = 2) := by
  constructor
  · have hall : codes.all
        (fun c => decide (-1 ≤ c ∧ c < ((["True", "False"] : List String).length : Int))) = true := by
      rw [List.all_eq_true]
      intro c hc
      rcases h c hc with rfl | rfl <;> decide
    refine ⟨codes.map (fun c => c == 0), ?_, rfl⟩
    unfold parse_group_categorical
    rw [if_pos hall,
      if_pos (show (["True", "False"].insertionSort (fun a b => strLeB a b = true)) =
        ["False", "True"] from by decide)]
    congr 1
    congr 1
    rw [List.map_map]
    apply List.map_congr_left
    intro c hc
    rcases h c hc with rfl | rfl <;> rfl
  · intro bs
    refine ⟨?_, rfl⟩
    have hall2 : (bs.map (fun x => if x then (0 : Int) else 1)).all
        (fun c => decide (-1 ≤ c ∧ c < ((["True", "False"] : List String).length : Int))) = true := by
      rw [List.all_eq_true]
      intro c hc
      obtain ⟨b, _, rfl⟩ := List.mem_map.mp hc
      cases b <;> decide
    show parse_group_categorical (bs.map (fun x => if x then (0 : Int) else 1))
        ["True", "False"] = _
    unfold parse_group_categorical
    rw [if_pos hall2,
      if_pos (show (["True", "False"].insertionSort (fun a b => strLeB a b = true)) =
        ["False", "True"] from by decide)]
    congr 1
    congr 1
    rw [List.map_map, List.map_map]
    conv_rhs => rw [show bs = bs.map id from (List.map_id bs).symm]
    apply List.map_congr_left
    intro b _
    cases b <;> rfl

/-- Witness for C8 at the code vector 0, 1, 0. -/
theorem legacy_bool_decode_roundtrip_witness :
    (∃ bs : List Bool,
        parse_group_categorical [0, 1, 0] ["True", "False"] =
          Except.ok (ParsedCol.boolCol bs) ∧
        bs = ([0, 1, 0] : List Int).map (fun c => c == 0)) ∧
    (∀ bs : List Bool,
        parse_group_categorical (encode_bool_legacy bs).1 (encode_bool_legacy bs).2 =
          Except.ok (ParsedCol.boolCol bs) ∧
        (encode_bool_legacy bs).2.length = 2) :=
  legacy_bool_decode_roundtrip [0, 1, 0] (by decide)

/-! ## Freshness of the undefined-category name (lemmas for claim C1) -/

/-- Value of a little-endian digit list. -/
def ofDigits10 (l : List Nat) : Nat := l.foldr (fun d acc => d + 10 * acc) 0

theorem ofDigits10_natDigitsAux :
    ∀ (fuel n : Nat), n ≤ fuel → ofDigits10 (natDigitsAux fuel n) = n := by
  intro fuel
  induction fuel with
  | zero =>
    intro n h
    have : n = 0 := by omega
    subst this
    rfl
  | succ f ih =>
    intro n h
    unfold natDigitsAux
    split
    · rename_i h0
      subst h0
      rfl
    · rename_i h0
      have hlt : n / 10 < n := Nat.div_lt_self (Nat.pos_of_ne_zero h0) (by norm_num)
      have hd : n / 10 ≤ f := by omega
      show n % 10 + 10 * ofDigits10 (natDigitsAux f (n / 10)) = n
      rw [ih _ hd, Nat.mod_add_div]

theorem ofDigits10_natDigits (n : Nat) : ofDigits10 (natDigits n) = n :=
  ofDigits10_natDigitsAux n n le_rfl

theorem natDigits_inj {m n : Nat} (h : natDigits m = natDigits n) : m = n := by
  have hm := ofDigits10_natDigits m
  have hn := ofDigits10_natDigits n
  rw [← hm, ← hn, h]

theorem natDigitsAux_lt10 :
    ∀ (fuel n : Nat), ∀ d ∈ natDigitsAux fuel n, d < 10 := by
  intro fuel
  induction fuel with
  | zero => intro n d hd; cases hd
  | succ f ih =>
    intro n d hd
    unfold natDigitsAux at hd
    split at hd
    · cases hd
    · rcases List.mem_cons.mp hd with rfl | hm
      · exact Nat.mod_lt _ (by norm_num)
      · exact ih _ _ hm

theorem digitChar_injOn10 (a b : Nat) (ha : a < 10) (hb : b < 10)
    (h : Nat.digitChar a = Nat.digitChar b) : a = b := by
  have key : ∀ x y : Fin 10, Nat.digitChar x.val = Nat.digitChar y.val → x = y := by
    decide
  exact congrArg Fin.val (key ⟨a, ha⟩ ⟨b, hb⟩ h)

theorem map_digitChar_inj :
    ∀ (l1 l2 : List Nat), (∀ d ∈ l1, d < 10) → (∀ d ∈ l2, d < 10) →
      l1.map Nat.digitChar = l2.map Nat.digitChar → l1 = l2 := by
  intro l1
  induction l1 with
  | nil =>
    intro l2 _ _ h
    cases l2 with
    | nil => rfl
    | cons b t2 => simp at h
  | cons a t ih =>
    intro l2 h1 h2 h
    cases l2 with
    | nil => simp at h
    | cons b t2 =>
      simp only [List.map_cons, List.cons.injEq] at h
      obtain ⟨hab, ht⟩ := h
      have hh : a = b :=
        digitChar_injOn10 a b (h1 a (List.mem_cons_self a t))
          (h2 b (List.mem_cons_self b t2)) hab
      rw [hh, ih t2 (fun d hd => h1 d (List.mem_cons_of_mem a hd))
        (fun d hd => h2 d (List.mem_cons_of_mem b hd)) ht]

theorem natStr_inj_pos (m n : Nat) (hm : m ≠ 0) (hn : n ≠ 0)
    (h : natStr m = natStr n) : m = n := by
  unfold natStr at h
  rw [if_neg hm, if_neg hn] at h
  have hdata : ((natDigits m).map Nat.digitChar).reverse =
      ((natDigits n).map Nat.digitChar).reverse := congrArg String.data h
  have hmap := List.reverse_injective hdata
  exact natDigits_inj
    (map_digitChar_inj _ _ (natDigitsAux_lt10 m m) (natDigitsAux_lt10 n n) hmap)

theorem undefCand_inj_pos (m n : Nat) (hm : 0 < m) (hn : 0 < n)
    (h : undefCand m = undefCand n) : m = n := by
  unfold undefCand at h
  have hdata := congrArg String.data h
  rw [String.data_append, String.data_append] at hdata
  have hsuffix := List.append_cancel_left hdata
  have hstr : natStr m = natStr n := congrArg String.mk hsuffix
  exact natStr_inj_pos m n (by omega) (by omega) hstr

theorem exists_fresh (cats : List String) :
    ∃ j, 1 ≤ j ∧ j < cats.length + 2 ∧ undefCand j ∉ cats := by
  by_contra hco
  push_neg at hco
  have hnd : ((List.range' 1 (cats.length + 1)).map undefCand).Nodup := by
    apply List.Nodup.map_on
    · intro x hx y hy hxy
      rw [List.mem_range'] at hx hy
      obtain ⟨i, _, rfl⟩ := hx
      obtain ⟨i2, _, rfl⟩ := hy
      exact undefCand_inj_pos _ _ (by omega) (by omega) hxy
    · exact List.nodup_range' 1 (cats.length + 1)
  have hsub : ((List.range' 1 (cats.length + 1)).map undefCand) ⊆ cats := by
    intro x hx
    obtain ⟨j, hj, rfl⟩ := List.mem_map.mp hx
    rw [List.mem_range'] at hj
    obtain ⟨i, hi, rfl⟩ := hj
    exact hco (1 + 1 * i) (by omega) (by omega)
  have hle := (List.subperm_of_subset hnd hsub).length_le
  rw [List.length_map, List.length_range'] at hle
  omega

theorem findFresh_not_mem (cats : List String) :
    ∀ (fuel i : Nat), (∃ j, i ≤ j ∧ j < i + fuel ∧ undefCand j ∉ cats) →
      findFresh cats i fuel ∉ cats := by
  intro fuel
  induction fuel with
  | zero =>
    rintro i ⟨j, h1, h2, _⟩
    omega
  | succ f ih =>
    rintro i ⟨j, h1, h2, h3⟩
    unfold findFresh
    split
    · rename_i hin
      apply ih (i + 1)
      refine ⟨j, ?_, by omega, h3⟩
      rcases Nat.eq_or_lt_of_le h1 with rfl | hlt
      · exact absurd hin h3
      · omega
    · rename_i hnin
      exact hnin

/-- The synthetic label chosen by get_undefined_category_name never collides
with an existing category. -/
theorem get_undefined_category_name_not_mem (cats : List String) :
    get_undefined_category_name cats ∉ cats := by
  unfold get_undefined_category_name
  split
  · apply findFresh_not_mem
    obtain ⟨j, h1, h2, h3⟩ := exists_fresh cats
    exact ⟨j, h1, by omega, h3⟩
  · rename_i h
    exact h

/-! ## Lookup lemmas for the Python dict model (claim C1) -/

theorem lookup_map_replace_self (k : String) (z : Int) :
    ∀ (d : List (String × Int)), d.any (fun p => p.1 == k) = true →
      (d.map (fun p => bif p.1 == k then (k, z) else p)).lookup k = some z := by
  intro d
  induction d with
  | nil => intro h; simp at h
  | cons p t ih =>
    intro h
    cases hb : (p.1 == k) with
    | true => simp [List.lookup, hb]
    | false =>
      have hk : (k == p.1) = false := by
        rw [beq_eq_false_iff_ne] at hb ⊢
        exact fun he => hb he.symm
      have ht : t.any (fun p => p.1 == k) = true := by
        simpa [List.any_cons, hb] using h
      simp [List.lookup, hb, hk, ih ht]

theorem lookup_append_single_ne (k k2 : String) (z : Int) (hne : k2 ≠ k) :
    ∀ (d : List (String × Int)), (d ++ [(k, z)]).lookup k2 = d.lookup k2 := by
  intro d
  induction d with
  | nil => simp [List.lookup, beq_eq_false_iff_ne.mpr hne]
  | cons p t ih =>
    cases hb : (k2 == p.1) with
    | true => simp [List.lookup, hb]
    | false => simp [List.lookup, hb, ih]

theorem lookup_map_replace_ne (k k2 : String) (z : Int) (hne : k2 ≠ k) :
    ∀ (d : List (String × Int)),
      (d.map (fun p => bif p.1 == k then (k, z) else p)).lookup k2 = d.lookup k2 := by
  intro d
  induction d with
  | nil => rfl
  | cons p t ih =>
    cases hb : (p.1 == k) with
    | true =>
      have hp : p.1 = k := beq_iff_eq.mp hb
      have hk2 : (k2 == p.1) = false := beq_eq_false_iff_ne.mpr (hp ▸ hne)
      simp [List.lookup, hb, hk2, beq_eq_false_iff_ne.mpr hne, ih]
    | false =>
      cases hb2 : (k2 == p.1) with
      | true => simp [List.lookup, hb, hb2]
      | false => simp [List.lookup, hb, hb2, ih]

theorem lookup_dictUpdate_self (d : List (String × Int)) (k : String) (z : Int) :
    (dictUpdate d k z).lookup k = some z := by
  unfold dictUpdate
  split
  · rename_i hany
    exact lookup_map_replace_self k z d hany
  · induction d with
    | nil => simp [List.lookup]
    | cons p t ih =>
      rename_i hany
      have hb : (p.1 == k) = false := by
        by_contra hc
        rw [Bool.not_eq_false] at hc
        exact hany (by simp [List.any_cons, hc])
      have hk : (k == p.1) = false := by
        rw [beq_eq_false_iff_ne] at hb ⊢
        exact fun he => hb he.symm
      have ht : ¬ t.any (fun p => p.1 == k) = true := by
        intro hc
        exact hany (by simp [List.any_cons, hc])
      simp only [List.cons_append, List.lookup, hk]
      exact ih ht

theorem lookup_dictUpdate_ne (d : List (String × Int)) (k k2 : String) (z : Int)
    (hne : k2 ≠ k) : (dictUpdate d k z).lookup k2 = d.lookup k2 := by
  unfold dictUpdate
  split
  · exact lookup_map_replace_ne k k2 z hne d
  · exact lookup_append_single_ne k k2 z hne d

theorem lookup_foldl_dictUpdate (k : String) (z : Int) :
    ∀ (l acc : List (String × Int)),
      ((l.foldl (fun d p => dictUpdate d p.1 p.2) acc).lookup k = some z) →
      (k, z) ∈ l ∨ acc.lookup k = some z := by
  intro l
  induction l with
  | nil => intro acc h; exact Or.inr h
  | cons p t ih =>
    intro acc h
    rcases ih (dictUpdate acc p.1 p.2) h with hmem | hl
    · exact Or.inl (List.mem_cons_of_mem _ hmem)
    · by_cases hk : k = p.1
      · subst hk
        rw [lookup_dictUpdate_self] at hl
        have : z = p.2 := by
          injection hl with h2
          exact h2.symm
        subst this
        exact Or.inl (List.mem_cons_self _ _)
      · rw [lookup_dictUpdate_ne _ _ _ _ hk] at hl
        exact Or.inr hl

theorem lookup_pyDict_mem (l : List (String × Int)) (k : String) (z : Int)
    (h : (pyDict l).lookup k = some z) : (k, z) ∈ l := by
  rcases lookup_foldl_dictUpdate k z l [] h with hm | hl
  · exact hm
  · simp [List.lookup] at hl

/-! ## Head-character lemmas: rendered non-string labels never collide with
the undefined names (claim C1) -/

theorem mem_strCategories (s : String) (cats : List Lbl) :
    s ∈ strCategories cats ↔ Lbl.str s ∈ cats := by
  unfold strCategories
  rw [List.mem_filterMap]
  constructor
  · rintro ⟨l, hl, he⟩
    cases l <;> simp_all
  · intro hm
    exact ⟨Lbl.str s, hm, rfl⟩

theorem digitChar_ne_u (d : Nat) : Nat.digitChar d ≠ 'u' := by
  rcases Nat.lt_or_ge d 16 with h | h
  · have key : ∀ x : Fin 16, Nat.digitChar x.val ≠ 'u' := by decide
    exact key ⟨d, h⟩
  · unfold Nat.digitChar
    rw [if_neg (show ¬ d = 0 by omega), if_neg (show ¬ d = 1 by omega),
      if_neg (show ¬ d = 2 by omega), if_neg (show ¬ d = 3 by omega),
      if_neg (show ¬ d = 4 by omega), if_neg (show ¬ d = 5 by omega),
      if_neg (show ¬ d = 6 by omega), if_neg (show ¬ d = 7 by omega),
      if_neg (show ¬ d = 8 by omega), if_neg (show ¬ d = 9 by omega),
      if_neg (show ¬ d = 10 by omega), if_neg (show ¬ d = 11 by omega),
      if_neg (show ¬ d = 12 by omega), if_neg (show ¬ d = 13 by omega),
      if_neg (show ¬ d = 14 by omega), if_neg (show ¬ d = 15 by omega)]
    decide

theorem natStr_head_pos (n : Nat) (hn : n ≠ 0) :
    ∃ d, (natStr n).data.head? = some (Nat.digitChar d) := by
  unfold natStr
  rw [if_neg hn]
  have hne : ((natDigits n).map Nat.digitChar).reverse ≠ [] := by
    simp only [ne_eq, List.reverse_eq_nil_iff, List.map_eq_nil_iff]
    unfold natDigits
    cases n with
    | zero => exact absurd rfl hn
    | succ m =>
      unfold natDigitsAux
      simp
  cases hl : ((natDigits n).map Nat.digitChar).reverse with
  | nil => exact absurd hl hne
  | cons a t =>
    have ha : a ∈ ((natDigits n).map Nat.digitChar).reverse :=
      hl ▸ List.mem_cons_self a t
    rw [List.mem_reverse, List.mem_map] at ha
    obtain ⟨d, _, rfl⟩ := ha
    exact ⟨d, by simp [hl]⟩

theorem intRepr_head_ne_u (n : Int) : (intRepr n).data.head? ≠ some 'u' := by
  cases n with
  | ofNat m =>
    by_cases hm : m = 0
    · subst hm
      decide
    · obtain ⟨d, hd⟩ := natStr_head_pos m hm
      show (natStr m).data.head? ≠ some 'u'
      rw [hd]
      intro hco
      injection hco with hco
      exact digitChar_ne_u d hco
  | negSucc m =>
    show (("-" ++ natStr (m + 1)).data).head? ≠ some 'u'
    rw [String.data_append, show ("-" : String).data = ['-'] from rfl]
    simp

theorem natStr_data_ne_nil (n : Nat) : (natStr n).data ≠ [] := by
  unfold natStr
  split
  · decide
  · rename_i hn
    show ((natDigits n).map Nat.digitChar).reverse ≠ []
    simp only [ne_eq, List.reverse_eq_nil_iff, List.map_eq_nil_iff]
    unfold natDigits
    cases n with
    | zero => exact absurd rfl hn
    | succ m =>
      unfold natDigitsAux
      simp

theorem intRepr_data_ne_nil (n : Int) : (intRepr n).data ≠ [] := by
  cases n with
  | ofNat m => exact natStr_data_ne_nil m
  | negSucc m =>
    show (("-" ++ natStr (m + 1)).data) ≠ []
    rw [String.data_append, show ("-" : String).data = ['-'] from rfl]
    simp

theorem ratRepr_head_ne_u (q : ℚ) : (ratRepr q).data.head? ≠ some 'u' := by
  unfold ratRepr
  rw [String.data_append]
  cases hl : (intRepr q.num).data with
  | nil => exact absurd hl (intRepr_data_ne_nil q.num)
  | cons a t =>
    have hi := intRepr_head_ne_u q.num
    rw [hl] at hi
    simpa using hi

theorem findFresh_is_cand (cats : List String) :
    ∀ (fuel i : Nat), ∃ j, findFresh cats i fuel = undefCand j := by
  intro fuel
  induction fuel with
  | zero => intro i; exact ⟨i, rfl⟩
  | succ f ih =>
    intro i
    unfold findFresh
    split
    · exact ih (i + 1)
    · exact ⟨i, rfl⟩

theorem undefCand_head (j : Nat) : (undefCand j).data.head? = some 'u' := by
  unfold undefCand
  rw [String.data_append,
    show ("undefined_" : String).data =
      ['u', 'n', 'd', 'e', 'f', 'i', 'n', 'e', 'd', '_'] from rfl]
  rfl

theorem get_undefined_category_name_head (cats : List String) :
    (get_undefined_category_name cats).data.head? = some 'u' := by
  unfold get_undefined_category_name
  split
  · obtain ⟨j, hj⟩ := findFresh_is_cand cats (cats.length + 1) 1
    rw [hj]
    exact undefCand_head j
  · rfl

theorem pyStr_ne_fresh (l : Lbl) (hl : ∀ s, l ≠ Lbl.str s) (cats : List String) :
    pyStr l ≠ get_undefined_category_name cats := by
  intro he
  have hh := get_undefined_category_name_head cats
  rw [← he] at hh
  cases l with
  | str s => exact hl s rfl
  | int n => exact intRepr_head_ne_u n hh
  | rat q => exact ratRepr_head_ne_u q hh
  | bool b =>
    cases b
    · exact absurd hh (by decide)
    · exact absurd hh (by decide)

/-- Claim C1: when a categorical column with at least one missing value is
materialized, the synthetic undefined label never equals any pre-existing
category label, its code in the resulting type_category codes map is -1, and
every real category's code there is non-negative, hence distinct from -1. -/
theorem undefined_category_fresh_and_distinct_code
    (c : CatCol) (h : hasnans c = true) :
    ∃ u : String,
      (fillna_as_undefined c).2 = some u ∧
      Lbl.str u ∉ c.categories ∧
      (type_category c).codes.lookup u = some (-1) ∧
      ∀ l ∈ c.categories, ∀ z : Int,
        (type_category c).codes.lookup (pyStr l) = some z → 0 ≤ z := by
  set u := get_undefined_category_name (strCategories c.categories) with hu
  have hfc : fillna_as_undefined c =
      (⟨c.entries.map (fun e => some (e.getD (Lbl.str u))),
        c.categories ++ [Lbl.str u]⟩, some u) := by
    simp [fillna_as_undefined, h]
  have hfresh : u ∉ strCategories c.categories :=
    get_undefined_category_name_not_mem (strCategories c.categories)
  refine ⟨u, by rw [hfc], ?_, ?_, ?_⟩
  · intro hm
    exact hfresh ((mem_strCategories _ _).mpr hm)
  · simp only [type_category, hfc]
    exact lookup_dictUpdate_self _ _ _
  · intro l hlmem z hz
    have hne : pyStr l ≠ u := by
      cases l with
      | str s =>
        intro he
        apply hfresh
        rw [← he]
        exact (mem_strCategories _ _).mpr hlmem
      | int n => exact pyStr_ne_fresh (Lbl.int n) (fun s hco => by cases hco) _
      | rat q => exact pyStr_ne_fresh (Lbl.rat q) (fun s hco => by cases hco) _
      | bool b => exact pyStr_ne_fresh (Lbl.bool b) (fun s hco => by cases hco) _
    simp only [type_category, hfc] at hz
    rw [lookup_dictUpdate_ne _ _ _ _ hne] at hz
    have hmem2 := lookup_pyDict_mem _ _ _ hz
    obtain ⟨p, _, hp⟩ := List.mem_map.mp hmem2
    have hz2 : (p.1 : Int) = z := congrArg Prod.snd hp
    rw [← hz2]
    exact Int.natCast_nonneg p.1

/-- Witness for C1: a single-category column with one missing entry. -/
theorem undefined_category_fresh_and_distinct_code_witness :
    ∃ u : String,
      (fillna_as_undefined ⟨[some (Lbl.str "a"), none], [Lbl.str "a"]⟩).2 = some u ∧
      Lbl.str u ∉ [Lbl.str "a"] ∧
      (type_category ⟨[some (Lbl.str "a"), none], [Lbl.str "a"]⟩).codes.lookup u =
        some (-1) ∧
      ∀ l ∈ [Lbl.str "a"], ∀ z : Int,
        (type_category ⟨[some (Lbl.str "a"), none],
          [Lbl.str "a"]⟩).codes.lookup (pyStr l) = some z → 0 ≤ z :=
  undefined_category_fresh_and_distinct_code
    ⟨[some (Lbl.str "a"), none], [Lbl.str "a"]⟩ (by decide)
